import Mathlib

/-!
Shallow embedding of the core of s5cmd (peakgames/s5cmd): the wildcard
sub-job coordinator (`core/job.go`), the S3 lister (`core/s3.go` and the
`storage` S3 backend), batch sub-job construction, `ListBuckets`, and the
exit-code / invocation-validation logic of `main.go`.

Go `uint32` counters are modelled as `Nat`: every run in scope drives
them by at most one increment per listed object, far below `2^32`, so
wrap-around never occurs and ordinary natural-number arithmetic is exact.
Concurrency is modelled by making the interleaving explicit: a run of the
coordinator is described by the list of sub-jobs emitted and, for the
cancelled case, by the number of sub-jobs that had completed (notified)
when the cancellation was observed.
-/

namespace S5cmd

/-- Translation of `subjobStatsType` from `core/job.go`: a `sync.WaitGroup`
counter together with the `numSuccess uint32` tally of successful sub-jobs. -/
structure subjobStatsType where
  wait : Nat
  numSuccess : Nat
deriving Repr, DecidableEq

/-- Translation of the body of `Job.Notify` for a job whose `subJobData` is
non-nil (`core/job.go`): `atomic.AddUint32(&numSuccess, 1)` when `success`,
then `subjobStats.Done()` which decrements the wait-group counter by one.
`Nat` subtraction stands for the decrement; callers only invoke it after a
matching `Add(1)`, so the counter is positive. -/
def notifyStats (st : subjobStatsType) (success : Bool) : subjobStatsType :=
  { wait := st.wait - 1
    numSuccess := if success then st.numSuccess + 1 else st.numSuccess }

/-- Translation of `Job.Notify` from `core/job.go`: a job carries an optional
pointer `subJobData` to its parent's `subjobStatsType`; `Notify` returns at
once when it is nil, and otherwise applies `notifyStats`. The state of the
parent's counters is passed explicitly. -/
def Notify (subJobData : Option subjobStatsType) (success : Bool) :
    Option subjobStatsType :=
  match subJobData with
  | none => none
  | some st => some (notifyStats st success)

/-- Operation tags of the `op` package, the subset the core dispatches on
(spec section 3: Copy, Move, Delete, Download, Upload, LocalCopy,
LocalDelete, List, Size, Head, the batch variants, AbortOnError, ShellExec,
and the `get` alias used by `S3BatchDownload`). -/
inductive Operation where
  | copy
  | download
  | upload
  | localCopy
  | localDelete
  | deleteObj
  | listObjects
  | size
  | headObject
  | batchDownload
  | batchCopy
  | batchDelete
  | abortOnError
  | shellExec
  | aliasBatchGet
deriving Repr, DecidableEq

/-- Flag symbols of the `opt` package read by the embedded code (spec
section 3: `DeleteSource`, `IfNotExists`, `IfSizeDiffer`, `IfSourceNewer`,
`Parents`, `Recursive`, `Help`). -/
inductive OptionType where
  | deleteSource
  | ifNotExists
  | ifSizeDiffer
  | ifSourceNewer
  | parents
  | recursive
  | help
deriving Repr, DecidableEq

/-- Set-semantics list of flag symbols (`opt.OptionList`). -/
abbrev OptionList : Type := List OptionType

/-- Membership test `OptionList.Has` from the `opt` package. -/
def OptionList.Has (l : OptionList) (o : OptionType) : Bool :=
  List.contains l o

/-- Outcome of `wildOperation` in `core/job.go`: either nil (success), the
`fmt.Errorf("not all jobs completed successfully: %d/%d", s, subJobCounter)`
batch-incomplete error, or `ErrInterrupted` (declared in `core/s3.go`; it is
part of the error vocabulary of the package). -/
inductive WildError where
  | interrupted : WildError
  | batchIncomplete (s total : Nat) : WildError
deriving Repr, DecidableEq

/-- Common tail of `wildOperation` (`core/job.go`): given the list of emitted
sub-jobs `jobs`, the per-job success predicate `succeeds`, and the number
`completed` of sub-jobs that have notified the parent, fold `notifyStats`
over the completed ones starting from the state left by the producer
(wait-counter = number of `Add(1)` calls = `jobs.length`), then compare the
loaded `numSuccess` with `subJobCounter = jobs.length` exactly as lines
237-244 do. -/
def wildOperationResult {β : Type} (jobs : List β) (succeeds : β → Bool)
    (completed : Nat) : Option WildError :=
  let final := (jobs.take completed).foldl
    (fun st j => notifyStats st (succeeds j)) ⟨jobs.length, 0⟩
  if final.numSuccess = jobs.length then none
  else some (.batchIncomplete final.numSuccess jobs.length)

/-- Translation of a `wildOperation` run (`core/job.go`) that completes
without cancellation: the producer drains the lister, `callback` turns each
listed item into an optional sub-job (`nil` results are skipped, matching
`if j != nil`), every emitted sub-job eventually notifies, and the
coordinator returns nil iff the loaded `numSuccess` equals `subJobCounter`. -/
def wildOperation {α β : Type} (callback : α → Option β) (succeeds : β → Bool)
    (items : List α) : Option WildError :=
  let jobs := items.filterMap callback
  wildOperationResult jobs succeeds jobs.length

/-- Translation of a `wildOperation` run (`core/job.go`) whose context is
cancelled after exactly `completed` of the emitted sub-jobs have notified:
the `select` at line 232 falls through on `ctx.Done()` and the function then
runs the very same success-count comparison; no `ErrInterrupted` branch
exists in `wildOperation`. -/
def wildOperationCancelled {α β : Type} (callback : α → Option β)
    (succeeds : β → Bool) (items : List α) (completed : Nat) :
    Option WildError :=
  wildOperationResult (items.filterMap callback) succeeds completed

/-- Translation of Go `strings.HasPrefix` on the character lists of the two
strings: `s` has `pre` as a prefix iff its first `len(pre)` characters equal
`pre`. -/
def hasPfx (s pre : String) : Bool :=
  s.data.take pre.data.length == pre.data

/-- Translation of `(*S3).ListBuckets` from the storage backend
(src/unnamed/part_001): iterate the backend's bucket names and, for every
bucket whose name has the requested string as a prefix (or every bucket,
when that string is empty), append — exactly as the source does — the
`prefix` argument itself, not the bucket's name, to the result slice. -/
def ListBuckets (bucketNames : List String) (pfx : String) : List String :=
  bucketNames.foldl
    (fun buckets name =>
      if pfx = "" || hasPfx name pfx then buckets ++ [pfx] else buckets)
    []

/-- Translation of the exit-code computation at the end of `main`
(`main.go`): `exitCode` starts at `-1` and is changed only by the `exitFunc`
installed for the `exit` command; after the run, an untouched `-1` becomes
`127` when the non-acceptable failure counter `failops = s.Get(stats.Fail)`
is positive and `0` otherwise. -/
def finalExitCode (exitCode : Int) (failops : Nat) : Int :=
  if exitCode = -1 then (if 0 < failops then 127 else 0) else exitCode

/-- Invocation-time inputs read by the validation prologue of `main`
(`main.go`): whether `flags.Parse` succeeded, the positional arguments, and
the flag values; the `flags` package itself is outside `src/`, so its
parsed values are taken as inputs. -/
structure Invocation where
  parseOK : Bool
  args : List String
  commandFile : String
  workerCount : Int
  uploadPartSize : Int
  retryCount : Int
deriving Repr, DecidableEq

/-- What the prologue of `main` does before any job runs: exit the process
with a code, or fall through and run jobs. -/
inductive MainOutcome where
  | exitWith (code : Nat)
  | runJobs
deriving Repr, DecidableEq

/-- Translation of the validation prologue of `main` (`main.go`, the
completion/gops/version side paths not taken): a `flags.Parse` error exits
with code 2; an empty first argument together with an empty command file
prints usage and exits with code 2; `cmd` is the space-join of the
positional arguments; giving both a command and a command file hits
`log.Fatal`, which prints and calls `os.Exit(1)`; so does the combined
check on missing input, zero worker count, upload part size below 1, or
negative retry count. -/
def mainValidate (inv : Invocation) : MainOutcome :=
  if inv.parseOK = false then .exitWith 2
  else if inv.args.headD "" = "" ∧ inv.commandFile = "" then .exitWith 2
  else if " ".intercalate inv.args ≠ "" ∧ inv.commandFile ≠ "" then
    .exitWith 1
  else if (" ".intercalate inv.args = "" ∧ inv.commandFile = "")
      ∨ inv.workerCount = 0 ∨ inv.uploadPartSize < 1
      ∨ inv.retryCount < 0 then
    .exitWith 1
  else .runJobs

/-- Character used by Go `filepath.Separator` on the POSIX targets the tool
is built for; on the remote side `path.Join` always uses `'/'`. -/
def filepathSeparator : Char := '/'

/-- Splitting of a character list at a separator character, the
character-level behaviour of the component view used below for Go
`path.Clean`. -/
def splitList (sep : Char) : List Char → List (List Char)
  | [] => [[]]
  | c :: rest =>
      match splitList sep rest with
      | g :: gs => if c = sep then [] :: g :: gs else (c :: g) :: gs
      | [] => [[c]]

/-- Stack-based resolution of path components for Go `path.Clean`: empty
and `"."` components are dropped, `".."` pops a non-`".."` stack entry, is
dropped at the root of a rooted path, and is kept on a relative path with
an exhausted stack; other components are pushed. -/
def cleanComponents (rooted : Bool) : List String → List String → List String
  | acc, [] => acc.reverse
  | acc, c :: rest =>
      if c = "" ∨ c = "." then cleanComponents rooted acc rest
      else if c = ".." then
        match acc with
        | top :: accRest =>
            if top = ".." then cleanComponents rooted (c :: acc) rest
            else cleanComponents rooted accRest rest
        | [] =>
            if rooted then cleanComponents rooted [] rest
            else cleanComponents rooted [c] rest
      else cleanComponents rooted (c :: acc) rest

/-- Translation of Go `path.Clean` (and `filepath.Clean` with the OS
separator), in components form: an empty path yields `"."`, a rooted result
keeps its leading separator, and an empty relative result yields `"."`. -/
def goClean (sep : Char) (p : String) : String :=
  if p.data = [] then "."
  else
    let rooted : Bool :=
      match p.data with
      | c :: _ => c == sep
      | [] => false
    let comps := cleanComponents rooted []
      ((splitList sep p.data).map (fun g => String.mk g))
    let joined := (String.mk [sep]).intercalate comps
    if rooted then String.mk [sep] ++ joined
    else if comps = [] then "." else joined

/-- Translation of Go `path.Join` / `filepath.Join` applied to two
elements, with the separator `sep`: the non-empty elements are joined by
the separator and the result cleaned; all-empty input yields the empty
string. -/
def goJoin (sep : Char) (a b : String) : String :=
  if a = "" ∧ b = "" then ""
  else if a = "" then goClean sep b
  else if b = "" then goClean sep a
  else goClean sep (a ++ String.mk [sep] ++ b)

/-- Translation of Go `path.Base`: trailing separators are dropped, the
part after the last separator is kept, an empty path yields `"."`, and an
all-separator path yields `"/"`. -/
def goBase (p : String) : String :=
  if p.data = [] then "."
  else
    let trimmed := (p.data.reverse.dropWhile (fun c => c = '/')).reverse
    let base := (trimmed.reverse.takeWhile (fun c => ¬ c = '/')).reverse
    if base = [] then String.mk ['/'] else String.mk base

/-- Modelled from the spec: the `objurl.ObjectURL` tagged union is not
under `src/`; per spec section 3 it carries a scheme (`"file"` for local
paths), a bucket and a key/path, with `IsRemote ⇔ scheme ≠ "file"`. Only
the fields read by the embedded code are modelled. -/
structure ObjectURL where
  scheme : String
  bucket : String
  path : String
deriving Repr, DecidableEq

/-- Modelled from the spec: `IsRemote ⇔ scheme ≠ "file"`. -/
def ObjectURL.IsRemote (u : ObjectURL) : Bool := u.scheme != "file"

/-- Modelled from the spec: `Base()` yields the final path component (Go
`path.Base` of the URL's path). -/
def ObjectURL.Base (u : ObjectURL) : String := goBase u.path

/-- Modelled from the spec: `Clone()` returns a copy of the URL that the
caller may mutate; mutation is modelled by structure update. -/
def ObjectURL.Clone (u : ObjectURL) : ObjectURL := u

/-- Fields of `storage.Object` read by the batch sub-job builders: the
object's URL. -/
structure Object where
  URL : ObjectURL
deriving Repr, DecidableEq

/-- Modelled from the spec: canonical short forms the `opt` package (not
under `src/`) renders for enabled options; the concrete strings affect no
claim. -/
def OptionType.shortForm : OptionType → String
  | .deleteSource => ""
  | .ifNotExists => " -n"
  | .ifSizeDiffer => " -s"
  | .ifSourceNewer => " -u"
  | .parents => " --parents"
  | .recursive => " -R"
  | .help => " -h"

/-- Modelled from the spec: `GetParams()` renders enabled options back to
canonical short form for logging. -/
def OptionList.GetParams (l : OptionList) : String :=
  String.join (l.map OptionType.shortForm)

/-- Fields of `Job` read by the embedded operations: the display command,
the operation tag, the options and the source/destination URLs (`none`
when absent). The parent back-pointer `subJobData` is passed to `Notify`
explicitly above. -/
structure Job where
  command : String
  operation : Operation
  opts : OptionList
  src : Option ObjectURL := none
  dst : Option ObjectURL := none
deriving Repr, DecidableEq

/-- Errors `Job.Run` can produce: `ErrDisplayedHelp` from the help path,
the `fmt.Errorf("unhandled operation %v", ...)` failure carrying the
operation tag, or whatever error the dispatched handler returned
(abstracted as a message). -/
inductive RunError where
  | displayedHelp
  | unhandledOperation (operation : Operation)
  | handlerErr (msg : String)
deriving Repr, DecidableEq

/-- Translation of `Job.Run` (`core/job.go`): the help path prints usage
and returns `ErrDisplayedHelp`; otherwise the operation tag is looked up
in `globalCmdRegistry` (a parameter here) and, when the lookup fails, the
"unhandled operation" error is returned without panicking; when it
succeeds the handler runs and its error is passed back through
`stats.IncrementIfSuccess`, which returns it unchanged (the stats side
effect is out of scope). -/
def Job.Run (j : Job)
    (registry : Operation → Option (Job → Option RunError)) :
    Option RunError :=
  if j.opts.Has .help then some .displayedHelp
  else
    match registry j.operation with
    | none => some (.unhandledOperation j.operation)
    | some cmdFunc => cmdFunc j

/-- Fields of `core.Command` read by the batch sub-job builders
(src/unnamed/part_000): the operation tag, the option list, and the
destination URL. -/
structure Command where
  operation : Operation
  opts : OptionList
  dst : ObjectURL
deriving Repr, DecidableEq

/-- Modelled from the spec: `Command.makeJob` (not under `src/`) builds the
unitary sub-job carrying the display command, the operation tag and the
source and destination URLs, inheriting the command's options. -/
def Command.makeJob (c : Command) (cmd : String) (operation : Operation)
    (src dst : ObjectURL) : Job :=
  { command := cmd, operation := operation, opts := c.opts,
    src := some src, dst := some dst }

/-- Translation of `S3BatchDownload` (src/unnamed/part_000): picks the
display verb (`get` for the alias, `mv` under `-deleteSource`, else `cp`)
plus rendered params, selects `object.URL.Path` under `-parents` and
`object.URL.Base()` otherwise, joins it onto a clone of the destination
with `path.Join` for a remote destination and `filepath.Join` for a local
one, and builds the unitary `op.Download` sub-job. The `os.MkdirAll` side
effect is out of scope. -/
def S3BatchDownload (command : Command) (object : Object) : Job :=
  let cmd0 := if command.operation = .aliasBatchGet then "get" else "cp"
  let cmd1 := if command.opts.Has .deleteSource then "mv" else cmd0
  let cmd := cmd1 ++ command.opts.GetParams
  let dst := command.dst
  let dstFn := if command.opts.Has .parents then object.URL.path
    else object.URL.Base
  let joinfn := if dst.IsRemote then goJoin '/'
    else goJoin filepathSeparator
  let clone := { dst.Clone with path := joinfn dst.Clone.path dstFn }
  command.makeJob cmd .download object.URL clone

/-- One page of `ListObjectsV2` results as consumed by the lister: the
common prefixes, the keys of `Contents`, and the truncation flag that
drives the SDK's pagination. -/
structure Page where
  commonPrefixes : List String
  contents : List String
  isTruncated : Bool
deriving Repr, DecidableEq

/-- Values sent on the lister's emit channel: an item carrying its matched
key and directory flag, or the nil EOF sentinel. -/
inductive EmitItem where
  | item (key : String) (isDirectory : Bool) : EmitItem
  | eofSentinel : EmitItem
deriving Repr, DecidableEq

/-- Translation of the directory check `key[len(key)-1] == '/'` applied to
a non-empty matched key; on an empty key the Go expression indexes out of
bounds and panics (the subject of C10), modelled here as `false`. -/
def lastCharIsSlash (k : String) : Bool := k.data.getLast? == some '/'

/-- Translation of one invocation of the page callback of `s3list`
(`core/s3.go`, mirrored by `(*S3).List` in src/unnamed/part_001), without
cancellation: `CommonPrefixes` whose prefix matches are emitted as
directory items, `Contents` whose key matches are emitted with the
last-character directory check, and the nil EOF sentinel follows a
non-truncated page. `matchFn` stands for the URL's compiled matcher
`s3url.Match` (the `s3url` package is outside `src/`), returning the
matched key on success. -/
def emitsOfPage (matchFn : String → Option String) (p : Page) :
    List EmitItem :=
  (p.commonPrefixes.filterMap
      (fun pre => (matchFn pre).map (fun k => EmitItem.item k true)))
    ++ (p.contents.filterMap
      (fun key => (matchFn key).map
          (fun k => EmitItem.item k (lastCharIsSlash k))))
    ++ (if p.isTruncated then [] else [EmitItem.eofSentinel])

/-- Translation of the full paginated run of the lister: the SDK's
`ListObjectsV2PagesWithContext` feeds the next page exactly while the page
just delivered was truncated and the callback returned true (always,
absent cancellation). -/
def s3list (matchFn : String → Option String) : List Page → List EmitItem
  | [] => []
  | p :: rest =>
      emitsOfPage matchFn p
        ++ (if p.isTruncated then s3list matchFn rest else [])

/-- Number of nil EOF sentinels in an emission trace. -/
def countEOF (es : List EmitItem) : Nat :=
  es.countP (fun e =>
    match e with
    | .eofSentinel => true
    | _ => false)

theorem foldl_notifyStats_numSuccess :
    ∀ (outcomes : List Bool) (w s : Nat),
      ((outcomes.foldl notifyStats ⟨w, s⟩ : subjobStatsType)).numSuccess
        = s + outcomes.count true := by
  intro outcomes
  induction outcomes with
  | nil => intro w s; simp
  | cons b rest ih =>
      intro w s
      cases b
      · rw [List.foldl_cons]
        have hstep : notifyStats ⟨w, s⟩ false = ⟨w - 1, s⟩ := rfl
        rw [hstep, ih (w - 1) s]
        simp [List.count_cons]
      · rw [List.foldl_cons]
        have hstep : notifyStats ⟨w, s⟩ true = ⟨w - 1, s + 1⟩ := rfl
        rw [hstep, ih (w - 1) (s + 1)]
        simp [List.count_cons]
        omega

theorem count_true_map {β : Type} (succeeds : β → Bool) (l : List β) :
    (l.map succeeds).count true = l.countP succeeds := by
  induction l with
  | nil => simp
  | cons j rest ih =>
      cases hj : succeeds j <;>
        simp [List.count_cons, List.countP_cons, hj, ih]

theorem wildOperationResult_numSuccess {β : Type} (succeeds : β → Bool)
    (jobs : List β) (w s : Nat) :
    (jobs.foldl (fun st j => notifyStats st (succeeds j))
        (⟨w, s⟩ : subjobStatsType)).numSuccess = s + jobs.countP succeeds := by
  have hmap := List.foldl_map succeeds notifyStats jobs
    (⟨w, s⟩ : subjobStatsType)
  calc (jobs.foldl (fun st j => notifyStats st (succeeds j))
          (⟨w, s⟩ : subjobStatsType)).numSuccess
      = ((jobs.map succeeds).foldl notifyStats
          (⟨w, s⟩ : subjobStatsType)).numSuccess := by rw [hmap]
    _ = s + (jobs.map succeeds).count true :=
        foldl_notifyStats_numSuccess (jobs.map succeeds) w s
    _ = s + jobs.countP succeeds := by rw [count_true_map]

/-- C1: for every wildcard parent operation that runs to completion without
cancellation, `wildOperation` returns a nil error if and only if the number
of successfully completed sub-jobs equals the total number of sub-jobs
emitted; otherwise it returns the batch-incomplete error carrying those two
counts. -/
theorem wildOperation_ok_iff {α β : Type} (callback : α → Option β)
    (succeeds : β → Bool) (items : List α) :
    (wildOperation callback succeeds items = none
        ↔ (items.filterMap callback).countP succeeds
            = (items.filterMap callback).length)
    ∧ (wildOperation callback succeeds items = none
        ∨ wildOperation callback succeeds items
            = some (.batchIncomplete
                ((items.filterMap callback).countP succeeds)
                (items.filterMap callback).length)) := by
  have hns : (((items.filterMap callback).take
        (items.filterMap callback).length).foldl
        (fun st j => notifyStats st (succeeds j))
        (⟨(items.filterMap callback).length, 0⟩ : subjobStatsType)).numSuccess
      = (items.filterMap callback).countP succeeds := by
    rw [List.take_length]
    simpa using wildOperationResult_numSuccess succeeds
      (items.filterMap callback) (items.filterMap callback).length 0
  simp only [wildOperation, wildOperationResult]
  rw [hns]
  by_cases h : (items.filterMap callback).countP succeeds
      = (items.filterMap callback).length
  · simp [h]
  · simp [h]

/-- C2 counterexample: a wildcard run over two listed items, both of whose
sub-jobs would succeed, that is cancelled after only one sub-job has
completed, yields the batch-incomplete error `1/2` — not `ErrInterrupted`,
which the claim asserts. -/
theorem wildOperationCancelled_one_of_two :
    wildOperationCancelled (fun b : Bool => some b) (fun b => b)
        [true, true] 1
      = some (.batchIncomplete 1 2)
    ∧ some (WildError.batchIncomplete 1 2)
        ≠ some WildError.interrupted := by
  constructor
  · decide
  · decide

/-- C2 (amended): for every wildcard parent whose context is cancelled
before all emitted sub-jobs complete (`completed < total emitted`),
`wildOperation` falls out of its `select` and returns the batch-incomplete
error comparing the successes among completed sub-jobs with the total; it
never returns `ErrInterrupted`. -/
theorem wildOperationCancelled_batchIncomplete {α β : Type}
    (callback : α → Option β) (succeeds : β → Bool) (items : List α)
    (completed : Nat)
    (hlt : completed < (items.filterMap callback).length) :
    wildOperationCancelled callback succeeds items completed
      = some (.batchIncomplete
          (((items.filterMap callback).take completed).countP succeeds)
          (items.filterMap callback).length) := by
  have hns : (((items.filterMap callback).take completed).foldl
        (fun st j => notifyStats st (succeeds j))
        (⟨(items.filterMap callback).length, 0⟩ : subjobStatsType)).numSuccess
      = ((items.filterMap callback).take completed).countP succeeds := by
    simpa using wildOperationResult_numSuccess succeeds
      ((items.filterMap callback).take completed)
      (items.filterMap callback).length 0
  have hle : ((items.filterMap callback).take completed).countP succeeds
      ≤ completed := by
    have h1 := List.countP_le_length (p := succeeds)
      (l := (items.filterMap callback).take completed)
    have h2 := List.length_take completed (items.filterMap callback)
    omega
  have hne : ¬ ((items.filterMap callback).take completed).countP succeeds
      = (items.filterMap callback).length := by omega
  simp only [wildOperationCancelled, wildOperationResult]
  rw [hns]
  simp [hne]

theorem wildOperationCancelled_batchIncomplete_witness :
    wildOperationCancelled (fun b : Bool => some b) (fun b => b)
        [true, false, true] 2
      = some (.batchIncomplete
          ((([true, false, true].filterMap
              (fun b : Bool => some b)).take 2).countP (fun b => b))
          ([true, false, true].filterMap (fun b : Bool => some b)).length) :=
  wildOperationCancelled_batchIncomplete (fun b : Bool => some b)
    (fun b => b) [true, false, true] 2 (by decide)

/-- C3: a single call to `Notify` on a job with non-nil `subJobData`
decrements the parent's wait-counter exactly once regardless of the
`success` argument, and increments the parent's success-counter iff
`success` is true; on a job with nil `subJobData` it changes nothing. -/
theorem Notify_spec (st : subjobStatsType) (success : Bool)
    (hwait : 0 < st.wait) :
    (∃ st2, Notify (some st) success = some st2
        ∧ st2.wait + 1 = st.wait
        ∧ st2.numSuccess = st.numSuccess + (if success then 1 else 0))
    ∧ Notify none success = none := by
  refine ⟨⟨notifyStats st success, rfl, ?_, ?_⟩, rfl⟩
  · simp only [notifyStats]
    omega
  · cases success <;> simp [notifyStats]

theorem Notify_spec_witness :
    (∃ st2, Notify (some ⟨2, 5⟩) true = some st2
        ∧ st2.wait + 1 = 2
        ∧ st2.numSuccess = 5 + (if true then 1 else 0))
    ∧ Notify none true = none :=
  Notify_spec ⟨2, 5⟩ true (by decide)

/-- C4: the sub-job built by `S3BatchDownload` has a destination whose path
is the command's destination path joined — by `path.Join` for a remote
destination and `filepath.Join` with the OS separator for a local one —
with the object's `Base()` when the `Parents` option is absent, and with
the object's full `Path` when `Parents` is set. -/
theorem S3BatchDownload_dst_path (command : Command) (object : Object) :
    (command.opts.Has .parents = false →
      ((S3BatchDownload command object).dst.map ObjectURL.path)
        = some ((if command.dst.IsRemote then goJoin '/'
            else goJoin filepathSeparator)
            command.dst.path object.URL.Base))
    ∧ (command.opts.Has .parents = true →
      ((S3BatchDownload command object).dst.map ObjectURL.path)
        = some ((if command.dst.IsRemote then goJoin '/'
            else goJoin filepathSeparator)
            command.dst.path object.URL.path)) := by
  constructor <;> intro hp <;>
    simp [S3BatchDownload, Command.makeJob, ObjectURL.Clone, hp]

theorem S3BatchDownload_dst_path_witness :
    ((S3BatchDownload ⟨.batchDownload, [], ⟨"file", "", "/tmp/out"⟩⟩
        ⟨⟨"s3", "bucket", "logs/a.txt"⟩⟩).dst.map ObjectURL.path)
      = some ((if (ObjectURL.mk "file" "" "/tmp/out").IsRemote
            then goJoin '/' else goJoin filepathSeparator)
          "/tmp/out" (ObjectURL.mk "s3" "bucket" "logs/a.txt").Base) :=
  (S3BatchDownload_dst_path ⟨.batchDownload, [], ⟨"file", "", "/tmp/out"⟩⟩
      ⟨⟨"s3", "bucket", "logs/a.txt"⟩⟩).1 (by decide)

/-- C5: `ListBuckets` should return the names of the buckets whose name
starts with the requested string, but the loop body appends the request
string itself instead of `*b.Name`: with a single bucket named `"alpha"`
and request `"a"`, it returns `["a"]` instead of `["alpha"]`, and with an
empty request it returns `[""]` instead of the bucket's name. -/
theorem ListBuckets_appends_request_not_name :
    ListBuckets ["alpha"] "a" = ["a"]
    ∧ ListBuckets ["alpha"] "" = [""]
    ∧ ¬ "a" = "alpha" := by decide

/-- C7: for every run that terminates without an explicit `exit` command —
the exit code still holds its initial `-1` — the process exit code is 127
iff the non-acceptable failure counter is positive, and 0 iff it is zero. -/
theorem finalExitCode_no_explicit_exit (failops : Nat) :
    (finalExitCode (-1) failops = 127 ↔ 0 < failops)
    ∧ (finalExitCode (-1) failops = 0 ↔ failops = 0) := by
  by_cases h : 0 < failops
  · have hv : finalExitCode (-1) failops = 127 := by
      simp [finalExitCode, h]
    rw [hv]
    refine ⟨⟨fun _ => h, fun _ => rfl⟩, ?_, ?_⟩
    · intro h2
      exact absurd h2 (by norm_num)
    · intro h2
      omega
  · have hv : finalExitCode (-1) failops = 0 := by
      simp [finalExitCode, h]
    rw [hv]
    refine ⟨⟨?_, ?_⟩, ⟨fun _ => by omega, fun _ => rfl⟩⟩
    · intro h2
      exact absurd h2 (by norm_num)
    · intro h2
      omega

/-- C8 counterexample: the invocation `s5cmd -numworkers 0 ls` — worker
count 0, hence "less than 1" and invalid per the claim — is rejected via
`log.Fatal`, which exits the process with code 1, not the claimed 2; and
the invocation with worker count `-2`, also "less than 1", is not rejected
at all, because `main` only tests `*flags.WorkerCount == 0`. -/
theorem mainValidate_zero_workers_exits_one :
    mainValidate ⟨true, ["ls"], "", 0, 5, 0⟩ = .exitWith 1
    ∧ ¬ MainOutcome.exitWith 1 = .exitWith 2
    ∧ mainValidate ⟨true, ["ls"], "", -2, 5, 0⟩ = .runJobs := by decide

/-- C8 (amended): every invocation that survives flag parsing and names a
command or a command file, but has worker count equal to 0, upload chunk
size below 1, retry count below 0, or both a command and a command file,
is rejected before any job runs and the process exits with code 1 (via
`log.Fatal`); exit code 2 is reserved for flag-parse failures and for
invocations naming neither a command nor a file. -/
theorem mainValidate_invalid_config (inv : Invocation)
    (hparse : inv.parseOK = true)
    (hinput : ¬ (inv.args.headD "" = "" ∧ inv.commandFile = ""))
    (hbad : inv.workerCount = 0 ∨ inv.uploadPartSize < 1
        ∨ inv.retryCount < 0
        ∨ (¬ " ".intercalate inv.args = "" ∧ ¬ inv.commandFile = "")) :
    mainValidate inv = .exitWith 1 := by
  unfold mainValidate
  rw [if_neg (by simp [hparse]), if_neg hinput]
  by_cases hc : (¬ " ".intercalate inv.args = "" ∧ ¬ inv.commandFile = "")
  · rw [if_pos hc]
  · rw [if_neg hc]
    have hbad2 : (" ".intercalate inv.args = "" ∧ inv.commandFile = "")
        ∨ inv.workerCount = 0 ∨ inv.uploadPartSize < 1
        ∨ inv.retryCount < 0 := by
      rcases hbad with h | h | h | h
      · exact Or.inr (Or.inl h)
      · exact Or.inr (Or.inr (Or.inl h))
      · exact Or.inr (Or.inr (Or.inr h))
      · exact absurd h hc
    rw [if_pos hbad2]

theorem mainValidate_invalid_config_witness :
    mainValidate ⟨true, [], "cmds.txt", 5, -1, 0⟩ = .exitWith 1 :=
  mainValidate_invalid_config ⟨true, [], "cmds.txt", 5, -1, 0⟩ rfl
    (by decide) (by decide)

/-- C9: a job whose operation tag has no handler in the operation registry
makes `Job.Run` return the non-nil "unhandled operation" error naming that
tag; the failed lookup is an ordinary return, not a panic, so the worker
pool keeps running. -/
theorem Run_unhandled_operation (j : Job)
    (registry : Operation → Option (Job → Option RunError))
    (hhelp : j.opts.Has .help = false)
    (hreg : registry j.operation = none) :
    j.Run registry = some (.unhandledOperation j.operation) := by
  simp [Job.Run, hhelp, hreg]

theorem Run_unhandled_operation_witness :
    Job.Run ⟨"cp", .copy, [], none, none⟩ (fun _ => none)
      = some (.unhandledOperation .copy) :=
  Run_unhandled_operation ⟨"cp", .copy, [], none, none⟩ (fun _ => none)
    (by decide) rfl

theorem emitsOfPage_item_matched (matchFn : String → Option String)
    (p : Page) (k : String) (d : Bool)
    (h : EmitItem.item k d ∈ emitsOfPage matchFn p) :
    ∃ orig, matchFn orig = some k := by
  unfold emitsOfPage at h
  rcases List.mem_append.mp h with h12 | h3
  · rcases List.mem_append.mp h12 with h1 | h2
    · obtain ⟨pre, hmem, hpre⟩ := List.mem_filterMap.mp h1
      obtain ⟨k2, hk2, heq⟩ := Option.map_eq_some'.mp hpre
      injection heq with hkk _
      exact ⟨pre, by rw [hk2, hkk]⟩
    · obtain ⟨key, hmem, hkey⟩ := List.mem_filterMap.mp h2
      obtain ⟨k2, hk2, heq⟩ := Option.map_eq_some'.mp hkey
      injection heq with hkk _
      exact ⟨key, by rw [hk2, hkk]⟩
  · cases hp : p.isTruncated
    · rw [hp] at h3
      simp at h3
    · rw [hp] at h3
      simp at h3

theorem s3list_item_matched (matchFn : String → Option String) :
    ∀ (pages : List Page) (k : String) (d : Bool),
      EmitItem.item k d ∈ s3list matchFn pages →
      ∃ orig, matchFn orig = some k := by
  intro pages
  induction pages with
  | nil => intro k d h; simp [s3list] at h
  | cons p rest ih =>
      intro k d h
      simp only [s3list] at h
      rcases List.mem_append.mp h with h1 | h2
      · exact emitsOfPage_item_matched matchFn p k d h1
      · cases hp : p.isTruncated
        · rw [hp] at h2; simp at h2
        · rw [hp] at h2; simp at h2; exact ih k d h2

theorem emitsOfPage_commonPrefix_mem (matchFn : String → Option String)
    (p : Page) (pre k : String)
    (hpre : pre ∈ p.commonPrefixes) (hk : matchFn pre = some k) :
    EmitItem.item k true ∈ emitsOfPage matchFn p := by
  unfold emitsOfPage
  apply List.mem_append.mpr
  left
  apply List.mem_append.mpr
  left
  exact List.mem_filterMap.mpr ⟨pre, hpre, by rw [hk]; rfl⟩

theorem s3list_mem_of_page (matchFn : String → Option String) :
    ∀ (ps : List Page) (plast : Page),
      (∀ q ∈ ps, q.isTruncated = true) →
      ∀ (p : Page), p ∈ ps ++ [plast] →
      ∀ (e : EmitItem), e ∈ emitsOfPage matchFn p →
      e ∈ s3list matchFn (ps ++ [plast]) := by
  intro ps
  induction ps with
  | nil =>
      intro plast _ p hp e he
      simp only [List.nil_append, List.mem_singleton] at hp
      subst hp
      simp only [List.nil_append, s3list]
      exact List.mem_append.mpr (Or.inl he)
  | cons q rest ih =>
      intro plast hmid p hp e he
      simp only [List.cons_append, s3list]
      have hq : q.isTruncated = true := hmid q (List.mem_cons_self q rest)
      rw [hq]
      simp only [if_pos rfl]
      rcases List.mem_cons.mp hp with rfl | hp2
      · exact List.mem_append.mpr (Or.inl he)
      · exact List.mem_append.mpr (Or.inr
          (ih plast (fun r hr => hmid r (List.mem_cons_of_mem q hr))
            p hp2 e he))

theorem countEOF_append (l1 l2 : List EmitItem) :
    countEOF (l1 ++ l2) = countEOF l1 + countEOF l2 := by
  simp [countEOF, List.countP_append]

theorem countEOF_filterMap_eq_zero {γ : Type} (f : γ → Option EmitItem)
    (hf : ∀ x e, f x = some e → ∃ k d, e = EmitItem.item k d)
    (l : List γ) :
    countEOF (l.filterMap f) = 0 := by
  rw [countEOF, List.countP_eq_zero]
  intro e he
  obtain ⟨x, _, hfx⟩ := List.mem_filterMap.mp he
  obtain ⟨k, d, rfl⟩ := hf x e hfx
  simp

theorem countEOF_emitsOfPage (matchFn : String → Option String)
    (p : Page) :
    countEOF (emitsOfPage matchFn p)
      = if p.isTruncated then 0 else 1 := by
  unfold emitsOfPage
  rw [countEOF_append, countEOF_append]
  rw [countEOF_filterMap_eq_zero, countEOF_filterMap_eq_zero]
  · cases hp : p.isTruncated <;> simp [hp, countEOF]
  · intro x e hx
    obtain ⟨k, _, heq⟩ := Option.map_eq_some'.mp hx
    exact ⟨k, lastCharIsSlash k, heq.symm⟩
  · intro x e hx
    obtain ⟨k, _, heq⟩ := Option.map_eq_some'.mp hx
    exact ⟨k, true, heq.symm⟩

theorem countEOF_s3list (matchFn : String → Option String) :
    ∀ (ps : List Page) (plast : Page),
      (∀ q ∈ ps, q.isTruncated = true) → plast.isTruncated = false →
      countEOF (s3list matchFn (ps ++ [plast])) = 1 := by
  intro ps
  induction ps with
  | nil =>
      intro plast _ hlast
      simp only [List.nil_append, s3list]
      rw [countEOF_append, countEOF_emitsOfPage, hlast]
      simp [countEOF]
  | cons q rest ih =>
      intro plast hmid hlast
      have hq : q.isTruncated = true := hmid q (List.mem_cons_self q rest)
      have ih2 := ih plast (fun r hr => hmid r (List.mem_cons_of_mem q hr))
        hlast
      simp only [List.cons_append, s3list]
      rw [countEOF_append, countEOF_emitsOfPage, hq]
      simp only [List.append_eq] at ih2 ⊢
      simp [ih2]

theorem s3list_ends_with_sentinel (matchFn : String → Option String) :
    ∀ (ps : List Page) (plast : Page),
      (∀ q ∈ ps, q.isTruncated = true) → plast.isTruncated = false →
      ∃ l, s3list matchFn (ps ++ [plast]) = l ++ [EmitItem.eofSentinel] := by
  intro ps
  induction ps with
  | nil =>
      intro plast _ hlast
      simp only [List.nil_append, s3list]
      refine ⟨(plast.commonPrefixes.filterMap
          (fun pre => (matchFn pre).map (fun k => EmitItem.item k true)))
        ++ (plast.contents.filterMap
          (fun key => (matchFn key).map
              (fun k => EmitItem.item k (lastCharIsSlash k)))), ?_⟩
      simp [emitsOfPage, hlast]
  | cons q rest ih =>
      intro plast hmid hlast
      obtain ⟨l, hl⟩ :=
        ih plast (fun r hr => hmid r (List.mem_cons_of_mem q hr)) hlast
      have hq : q.isTruncated = true := hmid q (List.mem_cons_self q rest)
      simp only [List.cons_append, s3list]
      rw [hq]
      refine ⟨emitsOfPage matchFn q ++ l, ?_⟩
      simp only [List.append_eq] at hl ⊢
      simp [hl]

/-- C6: for every paginated listing whose pages are all truncated except
the final one, each item the lister emits carries a key produced by the
URL's compiled matcher, every matching `CommonPrefixes` entry is emitted
flagged as a directory, and exactly one nil sentinel is emitted — as the
last element of the trace, after the final (non-truncated) page — to
denote EOF. -/
theorem s3list_spec (matchFn : String → Option String)
    (ps : List Page) (plast : Page)
    (hmid : ∀ q ∈ ps, q.isTruncated = true)
    (hlast : plast.isTruncated = false) :
    (∀ k d, EmitItem.item k d ∈ s3list matchFn (ps ++ [plast]) →
        ∃ orig, matchFn orig = some k)
    ∧ (∀ p ∈ ps ++ [plast], ∀ pre ∈ p.commonPrefixes, ∀ k,
        matchFn pre = some k →
        EmitItem.item k true ∈ s3list matchFn (ps ++ [plast]))
    ∧ countEOF (s3list matchFn (ps ++ [plast])) = 1
    ∧ (∃ l, s3list matchFn (ps ++ [plast])
        = l ++ [EmitItem.eofSentinel]) := by
  refine ⟨?_, ?_, ?_, ?_⟩
  · intro k d h
    exact s3list_item_matched matchFn (ps ++ [plast]) k d h
  · intro p hp pre hpre k hk
    exact s3list_mem_of_page matchFn ps plast hmid p hp _
      (emitsOfPage_commonPrefix_mem matchFn p pre k hpre hk)
  · exact countEOF_s3list matchFn ps plast hmid hlast
  · exact s3list_ends_with_sentinel matchFn ps plast hmid hlast

theorem s3list_spec_witness :
    countEOF (s3list (fun s => some s)
        ([⟨["d/"], ["a"], true⟩] ++ [⟨[], ["b"], false⟩])) = 1 :=
  (s3list_spec (fun s => some s) [⟨["d/"], ["a"], true⟩]
      ⟨[], ["b"], false⟩ (by decide) rfl).2.2.1

end S5cmd
